import Mathlib

/-!
Verification of the `Model` algebra of mariana-trench (`source/Model.h`).

A `Model` is the per-method summary of a taint analysis: port-indexed taint
trees (generations, parameter sources, sinks, call-effect sources/sinks,
propagations), sanitizers, feature attachments, mode and freeze bit-flags,
inline-as domains, generator provenance and issues.  The repository provides
the class interface in `source/Model.h`; the member function bodies live in
`Model.cpp`, which is not part of the excerpt, so the operations below are
modelled from the specification's description of their behavior, while the
data model, the flag encodings and `k_all_modes` are taken directly from the
header.
-/

namespace MarianaTrench

/-- A taint frame: one flow fact carrying a kind, a feature set and an
optional position used as provenance.  Kinds, features and positions are
opaque identifiers of the external taint domain. -/
structure Frame where
  kind : ℕ
  features : Finset ℕ
  position : Option ℕ
deriving DecidableEq

/-- The external taint value domain: a set of frames, with bottom the empty
set, join the union and leq the subset relation. -/
abbrev Taint := Finset Frame

/-- The root of an access path: return value, numbered argument (argument 0
is the receiver) or a call-effect port. -/
inductive Root where
  | ret : Root
  | argument (index : ℕ) : Root
  | callEffect (index : ℕ) : Root
deriving DecidableEq

/-- A field suffix refining a root. -/
abbrev Path := List ℕ

/-- An access path: a root together with a field suffix. -/
abbrev AccessPath := Root × Path

/-- A port-indexed taint tree (`TaintAccessPathTree`), flattened to a finite
set of (access path, frame) entries: the taint value at an access path is the
set of frames keyed on it, and a bottom entry is represented by absence.
Join is union, leq is inclusion, bottom is the empty set. -/
abbrev TaintAccessPathTree := Finset (AccessPath × Frame)

/-- The kinds field of a sanitizer: either a specific finite set of kinds or
all kinds. -/
inductive KindSet where
  | specific (kinds : Finset ℕ) : KindSet
  | all : KindSet
deriving DecidableEq

/-- Bottom of the kind-set lattice: no kinds. -/
def KindSet.bot : KindSet := .specific ∅

/-- Join of two kind sets. -/
def KindSet.join : KindSet → KindSet → KindSet
  | .specific s, .specific t => .specific (s ∪ t)
  | _, .all => .all
  | .all, _ => .all

/-- Order of the kind-set lattice. -/
def KindSet.le : KindSet → KindSet → Prop
  | .specific s, .specific t => s ⊆ t
  | _, .all => True
  | .all, .specific _ => False

/-- Whether a kind set covers (blocks) the given kind. -/
def KindSet.blocks : KindSet → ℕ → Bool
  | .specific s, k => decide (k ∈ s)
  | .all, _ => true

/-- Remove the given kinds from a kind set; the all-kinds sanitizer is not
affected by removing individual kinds. -/
def KindSet.remove (ks : KindSet) (to_remove : Finset ℕ) : KindSet :=
  match ks with
  | .specific s => .specific (s \ to_remove)
  | .all => .all

/-- What a sanitizer applies to: sources, sinks or propagations. -/
inductive SanitizerKind where
  | sources : SanitizerKind
  | sinks : SanitizerKind
  | propagations : SanitizerKind
deriving DecidableEq

/-- A grouped sanitizer set (`GroupHashedSetAbstractDomain` over `Sanitizer`
grouped by sanitizer kind): rules of the same sanitizer kind merge their
kind sets, so the set is one kind set per sanitizer kind. -/
@[ext] structure SanitizerSet where
  sources : KindSet
  sinks : KindSet
  propagations : KindSet
deriving DecidableEq

/-- Project the kind set of a sanitizer set for one sanitizer kind. -/
def SanitizerSet.get (s : SanitizerSet) : SanitizerKind → KindSet
  | .sources => s.sources
  | .sinks => s.sinks
  | .propagations => s.propagations

/-- Bottom of the sanitizer-set lattice: no sanitizers. -/
def SanitizerSet.bot : SanitizerSet :=
  { sources := KindSet.bot, sinks := KindSet.bot, propagations := KindSet.bot }

/-- Pointwise join of sanitizer sets. -/
def SanitizerSet.join (a b : SanitizerSet) : SanitizerSet where
  sources := a.sources.join b.sources
  sinks := a.sinks.join b.sinks
  propagations := a.propagations.join b.propagations

/-- Pointwise order of sanitizer sets. -/
def SanitizerSet.le (a b : SanitizerSet) : Prop :=
  a.sources.le b.sources ∧ a.sinks.le b.sinks ∧ a.propagations.le b.propagations

/-- Remove the given kinds from every entry of a sanitizer set. -/
def SanitizerSet.remove (s : SanitizerSet) (to_remove : Finset ℕ) : SanitizerSet where
  sources := s.sources.remove to_remove
  sinks := s.sinks.remove to_remove
  propagations := s.propagations.remove to_remove

/-- A constant abstract domain over `α`: bottom, a single value, or top.
Used for `inline_as_getter` (over access paths) and `inline_as_setter`
(over target/value access-path pairs). -/
inductive ConstantDomain (α : Type) where
  | bot : ConstantDomain α
  | val (a : α) : ConstantDomain α
  | top : ConstantDomain α
deriving DecidableEq

/-- Join of the constant domain: bottom is the identity, top absorbs, two
distinct values join to top. -/
def ConstantDomain.join {α : Type} [DecidableEq α] :
    ConstantDomain α → ConstantDomain α → ConstantDomain α
  | .bot, x => x
  | .top, _ => .top
  | .val a, .bot => .val a
  | .val a, .val b => if a = b then .val a else .top
  | .val _, .top => .top

/-- Order of the constant domain. -/
def ConstantDomain.le {α : Type} : ConstantDomain α → ConstantDomain α → Prop
  | .bot, _ => True
  | .val a, .val b => a = b
  | .val _, .top => True
  | .val _, .bot => False
  | .top, .top => True
  | .top, .bot => False
  | .top, .val _ => False

/-- `Model::Mode` (source/Model.h, lines 98-124): behavior flags of a model,
power-of-two encoded, with `normal` the all-zero default. -/
inductive Mode where
  | skipAnalysis : Mode
  | addViaObscureFeature : Mode
  | taintInTaintOut : Mode
  | taintInTaintThis : Mode
  | noJoinVirtualOverrides : Mode
  | noCollapseOnPropagation : Mode
  | aliasMemoryLocationOnInvoke : Mode
  | strongWriteOnPropagation : Mode
  | normal : Mode
deriving DecidableEq, Fintype

/-- The numeric value of each `Model::Mode` enumerator, exactly as written
in source/Model.h. -/
def modeValue : Mode → ℕ
  | .skipAnalysis => 0x1
  | .addViaObscureFeature => 0x2
  | .taintInTaintOut => 0x4
  | .taintInTaintThis => 0x8
  | .noJoinVirtualOverrides => 0x10
  | .noCollapseOnPropagation => 0x40
  | .aliasMemoryLocationOnInvoke => 0x80
  | .strongWriteOnPropagation => 0x100
  | .normal => 0

/-- `k_all_modes` (source/Model.h, lines 407-416): the array of the eight
mode flags, in declaration order. -/
def k_all_modes : List Mode :=
  [.skipAnalysis, .addViaObscureFeature, .taintInTaintOut, .taintInTaintThis,
   .noJoinVirtualOverrides, .noCollapseOnPropagation,
   .aliasMemoryLocationOnInvoke, .strongWriteOnPropagation]

/-- `Model::FreezeKind` (source/Model.h, lines 128-134). -/
inductive FreezeKind where
  | noFreeze : FreezeKind
  | generations : FreezeKind
  | parameterSources : FreezeKind
  | sinks : FreezeKind
  | propagations : FreezeKind
deriving DecidableEq

/-- The numeric value of each `Model::FreezeKind` enumerator. -/
def freezeValue : FreezeKind → ℕ
  | .noFreeze => 0
  | .generations => 0x1
  | .parameterSources => 0x2
  | .sinks => 0x4
  | .propagations => 0x8

/-- `k_all_freeze_kinds` (source/Model.h, lines 418-422). -/
def k_all_freeze_kinds : List FreezeKind :=
  [.generations, .parameterSources, .sinks, .propagations]

/-- The `Model` data model (source/Model.h, lines 372-391): the method
back-reference, mode and freeze bit patterns (`Flags` over the enum values),
six taint trees, global and per-port sanitizers, four per-port feature
attachment partitions, the two inline-as constant domains, generator
provenance and issues.  Methods, features, generator names and issues are
opaque identifiers; port partitions map every absent root to bottom and are
embedded as total functions from roots. -/
@[ext] structure Model where
  method : Option ℕ
  modes : ℕ
  frozen : ℕ
  generations : TaintAccessPathTree
  parameter_sources : TaintAccessPathTree
  sinks : TaintAccessPathTree
  call_effect_sources : TaintAccessPathTree
  call_effect_sinks : TaintAccessPathTree
  propagations : TaintAccessPathTree
  global_sanitizers : SanitizerSet
  port_sanitizers : Root → SanitizerSet
  attach_to_sources : Root → Finset ℕ
  attach_to_sinks : Root → Finset ℕ
  attach_to_propagations : Root → Finset ℕ
  add_features_to_arguments : Root → Finset ℕ
  inline_as_getter : ConstantDomain AccessPath
  inline_as_setter : ConstantDomain (AccessPath × AccessPath)
  model_generators : Finset ℕ
  issues : Finset ℕ

/-- The empty model (`Model::Model()`, source/Model.h line 140): no method,
no flags, every component bottom. -/
def Model.emptyModel : Model where
  method := none
  modes := 0
  frozen := 0
  generations := ∅
  parameter_sources := ∅
  sinks := ∅
  call_effect_sources := ∅
  call_effect_sinks := ∅
  propagations := ∅
  global_sanitizers := SanitizerSet.bot
  port_sanitizers := fun _ => SanitizerSet.bot
  attach_to_sources := fun _ => ∅
  attach_to_sinks := fun _ => ∅
  attach_to_propagations := fun _ => ∅
  add_features_to_arguments := fun _ => ∅
  inline_as_getter := .bot
  inline_as_setter := .bot
  model_generators := ∅
  issues := ∅

/-- `Model::is_frozen`: membership of a freeze kind in the frozen bit
pattern. -/
def Model.is_frozen (m : Model) (k : FreezeKind) : Bool :=
  m.frozen &&& freezeValue k != 0

/-- Modelled from the spec: `Model::join_with` (declared source/Model.h line
323, body in the missing Model.cpp).  Mutates self to the least upper bound:
every non-frozen component joins the other model's value in, frozen
components are left untouched regardless of the other model, modes become
the bitwise union, generators and issues the set union; the method and the
frozen flags are not changed.  Embedded as a function returning the updated
self. -/
def Model.join (a b : Model) : Model where
  method := a.method
  modes := a.modes ||| b.modes
  frozen := a.frozen
  generations :=
    if a.is_frozen .generations then a.generations
    else a.generations ∪ b.generations
  parameter_sources :=
    if a.is_frozen .parameterSources then a.parameter_sources
    else a.parameter_sources ∪ b.parameter_sources
  sinks :=
    if a.is_frozen .sinks then a.sinks else a.sinks ∪ b.sinks
  call_effect_sources := a.call_effect_sources ∪ b.call_effect_sources
  call_effect_sinks := a.call_effect_sinks ∪ b.call_effect_sinks
  propagations :=
    if a.is_frozen .propagations then a.propagations
    else a.propagations ∪ b.propagations
  global_sanitizers := a.global_sanitizers.join b.global_sanitizers
  port_sanitizers := fun r => (a.port_sanitizers r).join (b.port_sanitizers r)
  attach_to_sources := fun r => a.attach_to_sources r ∪ b.attach_to_sources r
  attach_to_sinks := fun r => a.attach_to_sinks r ∪ b.attach_to_sinks r
  attach_to_propagations := fun r =>
    a.attach_to_propagations r ∪ b.attach_to_propagations r
  add_features_to_arguments := fun r =>
    a.add_features_to_arguments r ∪ b.add_features_to_arguments r
  inline_as_getter := a.inline_as_getter.join b.inline_as_getter
  inline_as_setter := a.inline_as_setter.join b.inline_as_setter
  model_generators := a.model_generators ∪ b.model_generators
  issues := a.issues ∪ b.issues

/-- Modelled from the spec: `Model::leq` (declared source/Model.h line 322,
body in the missing Model.cpp).  True iff every non-frozen component of self
is pointwise below the corresponding component of the other model, frozen
components are compared for exact equality, and the modes of self are a
subset of the modes of the other; the method back-reference is not
compared. -/
def Model.leq (a b : Model) : Prop :=
  a.modes ||| b.modes = b.modes ∧
  (if a.is_frozen .generations then a.generations = b.generations
   else a.generations ⊆ b.generations) ∧
  (if a.is_frozen .parameterSources then a.parameter_sources = b.parameter_sources
   else a.parameter_sources ⊆ b.parameter_sources) ∧
  (if a.is_frozen .sinks then a.sinks = b.sinks else a.sinks ⊆ b.sinks) ∧
  (if a.is_frozen .propagations then a.propagations = b.propagations
   else a.propagations ⊆ b.propagations) ∧
  a.call_effect_sources ⊆ b.call_effect_sources ∧
  a.call_effect_sinks ⊆ b.call_effect_sinks ∧
  a.global_sanitizers.le b.global_sanitizers ∧
  (∀ r, (a.port_sanitizers r).le (b.port_sanitizers r)) ∧
  (∀ r, a.attach_to_sources r ⊆ b.attach_to_sources r) ∧
  (∀ r, a.attach_to_sinks r ⊆ b.attach_to_sinks r) ∧
  (∀ r, a.attach_to_propagations r ⊆ b.attach_to_propagations r) ∧
  (∀ r, a.add_features_to_arguments r ⊆ b.add_features_to_arguments r) ∧
  a.inline_as_getter.le b.inline_as_getter ∧
  a.inline_as_setter.le b.inline_as_setter ∧
  a.model_generators ⊆ b.model_generators ∧
  a.issues ⊆ b.issues

/-- Projection used to state facts "up to equality on the non-frozen
components": the four freezable trees that are frozen are masked to
bottom, every other component is kept. -/
def Model.maskFrozen (m : Model) : Model :=
  { m with
    generations := if m.is_frozen .generations then ∅ else m.generations
    parameter_sources :=
      if m.is_frozen .parameterSources then ∅ else m.parameter_sources
    sinks := if m.is_frozen .sinks then ∅ else m.sinks
    propagations := if m.is_frozen .propagations then ∅ else m.propagations }

/-- Modelled from the spec: the configured complexity bound on the depth of
paths stored under one port (the "configured complexity bound" of section
4.3; the exact value is configuration, fixed here). -/
def k_max_port_size : ℕ := 4

/-- Modelled from the spec: `Model::update_taint_tree` (declared
source/Model.h lines 338-343, body in the missing Model.cpp).  The shared
write routine of the `add_inferred_*` operations: if the port's path is
deeper than the truncation amount, descendant paths collapse into the
ancestor obtained by truncating the path, and the collapsed frames record
the supplied widening features; the (possibly collapsed) taint is then
weakly joined into the tree. -/
def update_taint_tree (tree : TaintAccessPathTree) (port : AccessPath)
    (truncation_amount : ℕ) (new_taint : Taint)
    (widening_features : Finset ℕ) : TaintAccessPathTree :=
  tree ∪
    (if truncation_amount < port.2.length then
      new_taint.image (fun fr => { fr with features := fr.features ∪ widening_features })
    else new_taint).image
      (fun fr => ((port.1, port.2.take truncation_amount), fr))

/-- Modelled from the spec: `Model::apply_source_sink_sanitizers` (declared
source/Model.h lines 270-271, body in the missing Model.cpp).  Filters the
taint by first checking the global sanitizers for a matching sanitizer of
the given kind, then the port-specific sanitizer set for the root; a
matching sanitizer removes the corresponding kinds, and the fully sanitized
value is bottom. -/
def Model.apply_source_sink_sanitizers (m : Model) (kind : SanitizerKind)
    (taint : Taint) (root : Root) : Taint :=
  (taint.filter
      (fun fr => (m.global_sanitizers.get kind).blocks fr.kind = false)).filter
    (fun fr => ((m.port_sanitizers root).get kind).blocks fr.kind = false)

/-- Modelled from the spec: `Model::add_inferred_generations` (declared
source/Model.h lines 208-211, body in the missing Model.cpp).  A no-op when
the generations component is frozen; otherwise applies the model's own
sanitizers to the incoming taint and merges the result into the generations
tree through the bounded write routine. -/
def Model.add_inferred_generations (m : Model) (port : AccessPath)
    (generations : Taint) (widening_features : Finset ℕ) : Model :=
  if m.is_frozen .generations then m
  else
    { m with
      generations :=
        update_taint_tree m.generations port k_max_port_size
          (m.apply_source_sink_sanitizers .sources generations port.1)
          widening_features }

/-- Modelled from the spec: `Model::add_inferred_sinks` (declared
source/Model.h lines 230-233, body in the missing Model.cpp).  A no-op when
the sinks component is frozen; otherwise applies the model's own sanitizers
to the incoming taint and merges the result into the sinks tree through the
bounded write routine. -/
def Model.add_inferred_sinks (m : Model) (port : AccessPath)
    (sinks : Taint) (widening_features : Finset ℕ) : Model :=
  if m.is_frozen .sinks then m
  else
    { m with
      sinks :=
        update_taint_tree m.sinks port k_max_port_size
          (m.apply_source_sink_sanitizers .sinks sinks port.1)
          widening_features }

/-- Modelled from the spec: `Model::add_inferred_propagations` (declared
source/Model.h lines 258-261, body in the missing Model.cpp).  A no-op when
the propagations component is frozen; otherwise applies the model's own
sanitizers to the incoming taint and merges the result into the
propagations tree (keyed by input path) through the bounded write
routine. -/
def Model.add_inferred_propagations (m : Model) (input_path : AccessPath)
    (local_taint : Taint) (widening_features : Finset ℕ) : Model :=
  if m.is_frozen .propagations then m
  else
    { m with
      propagations :=
        update_taint_tree m.propagations input_path k_max_port_size
          (m.apply_source_sink_sanitizers .propagations local_taint input_path.1)
          widening_features }

/-- Prune the listed kinds out of a flattened taint tree; an entry whose
frame has a pruned kind disappears, so a taint value that becomes bottom is
dropped entirely. -/
def prune_tree (tree : TaintAccessPathTree) (to_remove : Finset ℕ) :
    TaintAccessPathTree :=
  tree.filter (fun e => e.2.kind ∉ to_remove)

/-- Modelled from the spec: `Model::remove_kinds` (declared source/Model.h
line 306, body in the missing Model.cpp).  Prunes the listed taint kinds
from every taint tree and every sanitizer entry of the model. -/
def Model.remove_kinds (m : Model) (to_remove : Finset ℕ) : Model :=
  { m with
    generations := prune_tree m.generations to_remove
    parameter_sources := prune_tree m.parameter_sources to_remove
    sinks := prune_tree m.sinks to_remove
    call_effect_sources := prune_tree m.call_effect_sources to_remove
    call_effect_sinks := prune_tree m.call_effect_sinks to_remove
    propagations := prune_tree m.propagations to_remove
    global_sanitizers := m.global_sanitizers.remove to_remove
    port_sanitizers := fun r => (m.port_sanitizers r).remove to_remove }

/-- Modelled from the spec: `Model::instantiate` (declared source/Model.h
line 180, body in the missing Model.cpp).  Returns a copy of the model
identical in every component except that the method is rebound; the context
argument of the source only resolves the method and is elided. -/
def Model.instantiate (m : Model) (method : ℕ) : Model :=
  { m with method := some method }

/-- Re-key every entry of a tree through the call's argument-root map and
stamp every frame with the call position as provenance. -/
def retarget_tree (tree : TaintAccessPathTree) (argument_map : Root → Root)
    (position : ℕ) : TaintAccessPathTree :=
  tree.image
    (fun e => ((argument_map e.1.1, e.1.2), { e.2 with position := some position }))

/-- Modelled from the spec: `Model::at_callsite` (declared source/Model.h
lines 183-189, body in the missing Model.cpp).  Produces the callee model
specialized for one call: every taint frame of generations, sinks and
propagations is re-derived by substituting the call's concrete argument
roots (the argument map) for the callee's formal ports, and every frame
records the call position as provenance.  The caller, context, register
types and constant arguments of the source signature refine individual
frames and are elided; the argument map stands for the call's binding of
formal ports to caller roots. -/
def Model.at_callsite (m : Model) (argument_map : Root → Root)
    (position : ℕ) : Model :=
  { m with
    generations := retarget_tree m.generations argument_map position
    sinks := retarget_tree m.sinks argument_map position
    propagations := retarget_tree m.propagations argument_map position }

/-- `ExportOriginsMode`: full export keeps provenance and positions, the
minimal export drops them. -/
inductive ExportOriginsMode where
  | full : ExportOriginsMode
  | minimal : ExportOriginsMode

/-- One top-level field of the JSON schema of a model record (section 6 of
the spec).  The payloads abstract from the concrete string encoding of the
external sub-domains; an `unknownField` is a field outside the documented
schema. -/
inductive JField where
  | methodField (value : Option ℕ) : JField
  | modesField (value : ℕ) : JField
  | freezeField (value : ℕ) : JField
  | generationsField (value : TaintAccessPathTree) : JField
  | parameterSourcesField (value : TaintAccessPathTree) : JField
  | sinksField (value : TaintAccessPathTree) : JField
  | callEffectSourcesField (value : TaintAccessPathTree) : JField
  | callEffectSinksField (value : TaintAccessPathTree) : JField
  | propagationsField (value : TaintAccessPathTree) : JField
  | globalSanitizersField (value : SanitizerSet) : JField
  | portSanitizersField (value : Root → SanitizerSet) : JField
  | attachToSourcesField (value : Root → Finset ℕ) : JField
  | attachToSinksField (value : Root → Finset ℕ) : JField
  | attachToPropagationsField (value : Root → Finset ℕ) : JField
  | addFeaturesToArgumentsField (value : Root → Finset ℕ) : JField
  | inlineAsGetterField (value : ConstantDomain AccessPath) : JField
  | inlineAsSetterField (value : ConstantDomain (AccessPath × AccessPath)) : JField
  | modelGeneratorsField (value : Finset ℕ) : JField
  | issuesField (value : Finset ℕ) : JField
  | unknownField (name : String) : JField

/-- A JSON model record: its list of top-level fields. -/
abbrev Json := List JField

/-- The name of a field, used to report the offending member of a strict
parse. -/
def JField.name : JField → String
  | .methodField _ => "method"
  | .modesField _ => "modes"
  | .freezeField _ => "freeze"
  | .generationsField _ => "generations"
  | .parameterSourcesField _ => "parameter_sources"
  | .sinksField _ => "sinks"
  | .callEffectSourcesField _ => "effect_sources"
  | .callEffectSinksField _ => "effect_sinks"
  | .propagationsField _ => "propagation"
  | .globalSanitizersField _ => "global_sanitizers"
  | .portSanitizersField _ => "port_sanitizers"
  | .attachToSourcesField _ => "attach_to_sources"
  | .attachToSinksField _ => "attach_to_sinks"
  | .attachToPropagationsField _ => "attach_to_propagations"
  | .addFeaturesToArgumentsField _ => "add_features_to_arguments"
  | .inlineAsGetterField _ => "inline_as_getter"
  | .inlineAsSetterField _ => "inline_as_setter"
  | .modelGeneratorsField _ => "model_generators"
  | .issuesField _ => "issues"
  | .unknownField n => n

/-- Whether a field lies outside the documented schema. -/
def JField.isUnknown : JField → Bool
  | .unknownField _ => true
  | _ => false

/-- Reading one schema field into the model under construction; a field
outside the schema changes nothing. -/
def applyField (m : Model) : JField → Model
  | .methodField v => { m with method := v }
  | .modesField v => { m with modes := v }
  | .freezeField v => { m with frozen := v }
  | .generationsField v => { m with generations := v }
  | .parameterSourcesField v => { m with parameter_sources := v }
  | .sinksField v => { m with sinks := v }
  | .callEffectSourcesField v => { m with call_effect_sources := v }
  | .callEffectSinksField v => { m with call_effect_sinks := v }
  | .propagationsField v => { m with propagations := v }
  | .globalSanitizersField v => { m with global_sanitizers := v }
  | .portSanitizersField v => { m with port_sanitizers := v }
  | .attachToSourcesField v => { m with attach_to_sources := v }
  | .attachToSinksField v => { m with attach_to_sinks := v }
  | .attachToPropagationsField v => { m with attach_to_propagations := v }
  | .addFeaturesToArgumentsField v => { m with add_features_to_arguments := v }
  | .inlineAsGetterField v => { m with inline_as_getter := v }
  | .inlineAsSetterField v => { m with inline_as_setter := v }
  | .modelGeneratorsField v => { m with model_generators := v }
  | .issuesField v => { m with issues := v }
  | .unknownField _ => m

/-- Assemble a model from a record: start from the empty model bound to the
given method, then read every schema field; every absent schema field thus
defaults to the corresponding bottom or empty component. -/
def build_model (method : Option ℕ) (value : Json) : Model :=
  value.foldl applyField { Model.emptyModel with method := method }

/-- Modelled from the spec: `Model::from_json` (declared source/Model.h
lines 325-329, body in the missing Model.cpp).  With
`check_unexpected_members` set, a record containing a field outside the
schema is rejected with a parse error naming the offending member; without
it, unknown fields are ignored.  In both modes every absent schema field
defaults to the corresponding bottom or empty component. -/
def Model.from_json (method : Option ℕ) (value : Json)
    (check_unexpected_members : Bool) : Except String Model :=
  match value.find? JField.isUnknown with
  | some f =>
    if check_unexpected_members then
      Except.error ("unexpected member " ++ f.name)
    else
      Except.ok (build_model method value)
  | none => Except.ok (build_model method value)

/-- Drop the position provenance from every frame of a tree (the minimal
export form). -/
def strip_positions (tree : TaintAccessPathTree) : TaintAccessPathTree :=
  tree.image (fun e => (e.1, { e.2 with position := none }))

/-- Modelled from the spec: `Model::to_json` (declared source/Model.h line
330, body in the missing Model.cpp).  Serializes the schema of section 6;
the full form includes provenance and positions, the minimal form drops
frame positions and generator provenance. -/
def Model.to_json (m : Model) (mode : ExportOriginsMode) : Json :=
  match mode with
  | .full =>
    [.methodField m.method, .modesField m.modes, .freezeField m.frozen,
     .generationsField m.generations,
     .parameterSourcesField m.parameter_sources,
     .sinksField m.sinks,
     .callEffectSourcesField m.call_effect_sources,
     .callEffectSinksField m.call_effect_sinks,
     .propagationsField m.propagations,
     .globalSanitizersField m.global_sanitizers,
     .portSanitizersField m.port_sanitizers,
     .attachToSourcesField m.attach_to_sources,
     .attachToSinksField m.attach_to_sinks,
     .attachToPropagationsField m.attach_to_propagations,
     .addFeaturesToArgumentsField m.add_features_to_arguments,
     .inlineAsGetterField m.inline_as_getter,
     .inlineAsSetterField m.inline_as_setter,
     .modelGeneratorsField m.model_generators,
     .issuesField m.issues]
  | .minimal =>
    [.methodField m.method, .modesField m.modes, .freezeField m.frozen,
     .generationsField (strip_positions m.generations),
     .parameterSourcesField (strip_positions m.parameter_sources),
     .sinksField (strip_positions m.sinks),
     .callEffectSourcesField (strip_positions m.call_effect_sources),
     .callEffectSinksField (strip_positions m.call_effect_sinks),
     .propagationsField (strip_positions m.propagations),
     .globalSanitizersField m.global_sanitizers,
     .portSanitizersField m.port_sanitizers,
     .attachToSourcesField m.attach_to_sources,
     .attachToSinksField m.attach_to_sinks,
     .attachToPropagationsField m.attach_to_propagations,
     .addFeaturesToArgumentsField m.add_features_to_arguments,
     .inlineAsGetterField m.inline_as_getter,
     .inlineAsSetterField m.inline_as_setter,
     .issuesField m.issues]

/-! Lattice lemmas for the component domains. -/

theorem kindset_le_refl (a : KindSet) : a.le a := by
  cases a
  · exact Finset.Subset.refl _
  · trivial

theorem kindset_le_antisymm : ∀ {a b : KindSet}, a.le b → b.le a → a = b := by
  intro a b
  cases a <;> cases b <;> simp [KindSet.le]
  exact fun h1 h2 => Finset.Subset.antisymm h1 h2

theorem kindset_join_comm (a b : KindSet) : a.join b = b.join a := by
  cases a <;> cases b <;> simp [KindSet.join, Finset.union_comm]

theorem kindset_join_assoc (a b c : KindSet) :
    (a.join b).join c = a.join (b.join c) := by
  cases a <;> cases b <;> cases c <;> simp [KindSet.join, Finset.union_assoc]

theorem kindset_join_bot_right (a : KindSet) : a.join KindSet.bot = a := by
  cases a <;> simp [KindSet.join, KindSet.bot]

theorem kindset_join_bot_left (a : KindSet) : KindSet.bot.join a = a := by
  cases a <;> simp [KindSet.join, KindSet.bot]

theorem kindset_bot_le (a : KindSet) : KindSet.bot.le a := by
  cases a <;> simp [KindSet.le, KindSet.bot]

theorem sanitizer_le_refl (a : SanitizerSet) : a.le a :=
  ⟨kindset_le_refl _, kindset_le_refl _, kindset_le_refl _⟩

theorem sanitizer_le_antisymm {a b : SanitizerSet}
    (h1 : a.le b) (h2 : b.le a) : a = b :=
  SanitizerSet.ext (kindset_le_antisymm h1.1 h2.1)
    (kindset_le_antisymm h1.2.1 h2.2.1) (kindset_le_antisymm h1.2.2 h2.2.2)

theorem sanitizer_join_comm (a b : SanitizerSet) : a.join b = b.join a :=
  SanitizerSet.ext (kindset_join_comm _ _) (kindset_join_comm _ _)
    (kindset_join_comm _ _)

theorem sanitizer_join_assoc (a b c : SanitizerSet) :
    (a.join b).join c = a.join (b.join c) :=
  SanitizerSet.ext (kindset_join_assoc _ _ _) (kindset_join_assoc _ _ _)
    (kindset_join_assoc _ _ _)

theorem sanitizer_join_bot_right (a : SanitizerSet) :
    a.join SanitizerSet.bot = a :=
  SanitizerSet.ext (kindset_join_bot_right _) (kindset_join_bot_right _)
    (kindset_join_bot_right _)

theorem sanitizer_join_bot_left (a : SanitizerSet) :
    SanitizerSet.bot.join a = a :=
  SanitizerSet.ext (kindset_join_bot_left _) (kindset_join_bot_left _)
    (kindset_join_bot_left _)

theorem sanitizer_bot_le (a : SanitizerSet) : SanitizerSet.bot.le a :=
  ⟨kindset_bot_le _, kindset_bot_le _, kindset_bot_le _⟩

theorem cdom_le_refl {α : Type} (a : ConstantDomain α) : a.le a := by
  cases a <;> simp [ConstantDomain.le]

theorem cdom_le_antisymm {α : Type} :
    ∀ {a b : ConstantDomain α}, a.le b → b.le a → a = b := by
  intro a b
  cases a <;> cases b <;> simp [ConstantDomain.le]
  exact fun h _ => h

theorem cdom_join_comm {α : Type} [DecidableEq α]
    (a b : ConstantDomain α) : a.join b = b.join a := by
  cases a <;> cases b <;> simp [ConstantDomain.join]
  rename_i x y
  by_cases h : x = y
  · subst h; simp
  · simp [h, Ne.symm h]

theorem cdom_join_assoc {α : Type} [DecidableEq α]
    (a b c : ConstantDomain α) : (a.join b).join c = a.join (b.join c) := by
  cases a <;> cases b <;> cases c <;> try rfl
  case val.val.bot x y =>
    by_cases h : x = y <;> simp [ConstantDomain.join, h]
  case val.val.top x y =>
    by_cases h : x = y <;> simp [ConstantDomain.join, h]
  case val.val.val x y z =>
    by_cases hxy : x = y
    · subst hxy
      by_cases hxz : x = z
      · subst hxz; simp [ConstantDomain.join]
      · simp [ConstantDomain.join, hxz]
    · by_cases hyz : y = z
      · subst hyz; simp [ConstantDomain.join, hxy]
      · simp [ConstantDomain.join, hxy, hyz]

theorem cdom_join_bot_right {α : Type} [DecidableEq α]
    (a : ConstantDomain α) : a.join ConstantDomain.bot = a := by
  cases a <;> simp [ConstantDomain.join]

theorem cdom_join_bot_left {α : Type} [DecidableEq α]
    (a : ConstantDomain α) : ConstantDomain.bot.join a = a := by
  simp [ConstantDomain.join]

theorem cdom_bot_le {α : Type} (a : ConstantDomain α) :
    ConstantDomain.le ConstantDomain.bot a := by
  simp [ConstantDomain.le]

/-! Lemmas about the model lattice. -/

theorem Model.leq_refl (a : Model) : a.leq a := by
  unfold Model.leq
  refine ⟨Nat.or_self _, ?_, ?_, ?_, ?_, Finset.Subset.refl _, Finset.Subset.refl _,
    sanitizer_le_refl _, fun _ => sanitizer_le_refl _,
    fun _ => Finset.Subset.refl _, fun _ => Finset.Subset.refl _,
    fun _ => Finset.Subset.refl _, fun _ => Finset.Subset.refl _,
    cdom_le_refl _, cdom_le_refl _,
    Finset.Subset.refl _, Finset.Subset.refl _⟩ <;>
    split <;> rfl

theorem Model.is_frozen_congr {a b : Model} (hf : a.frozen = b.frozen) :
    ∀ k, a.is_frozen k = b.is_frozen k := by
  intro k; simp [Model.is_frozen, hf]

theorem Model.leq_antisymm {a b : Model} (hm : a.method = b.method)
    (hf : a.frozen = b.frozen) (h1 : a.leq b) (h2 : b.leq a) : a = b := by
  obtain ⟨m1, g1, p1, s1, pr1, ce1, cf1, gs1, ps1, as1, ak1, ap1, af1, ig1, is1, mg1, i1⟩ := h1
  obtain ⟨m2, g2, p2, s2, pr2, ce2, cf2, gs2, ps2, as2, ak2, ap2, af2, ig2, is2, mg2, i2⟩ := h2
  have hfr : ∀ k, b.is_frozen k = a.is_frozen k := Model.is_frozen_congr hf.symm
  refine Model.ext hm ?_ hf ?_ ?_ ?_
    (Finset.Subset.antisymm ce1 ce2) (Finset.Subset.antisymm cf1 cf2) ?_
    (sanitizer_le_antisymm gs1 gs2)
    (funext fun r => sanitizer_le_antisymm (ps1 r) (ps2 r))
    (funext fun r => Finset.Subset.antisymm (as1 r) (as2 r))
    (funext fun r => Finset.Subset.antisymm (ak1 r) (ak2 r))
    (funext fun r => Finset.Subset.antisymm (ap1 r) (ap2 r))
    (funext fun r => Finset.Subset.antisymm (af1 r) (af2 r))
    (cdom_le_antisymm ig1 ig2) (cdom_le_antisymm is1 is2)
    (Finset.Subset.antisymm mg1 mg2) (Finset.Subset.antisymm i1 i2)
  · rw [← m2, Nat.lor_comm]; exact m1
  · rw [hfr] at g2
    by_cases h : a.is_frozen .generations
    · rw [if_pos h] at g1; exact g1
    · rw [if_neg h] at g1 g2; exact Finset.Subset.antisymm g1 g2
  · rw [hfr] at p2
    by_cases h : a.is_frozen .parameterSources
    · rw [if_pos h] at p1; exact p1
    · rw [if_neg h] at p1 p2; exact Finset.Subset.antisymm p1 p2
  · rw [hfr] at s2
    by_cases h : a.is_frozen .sinks
    · rw [if_pos h] at s1; exact s1
    · rw [if_neg h] at s1 s2; exact Finset.Subset.antisymm s1 s2
  · rw [hfr] at pr2
    by_cases h : a.is_frozen .propagations
    · rw [if_pos h] at pr1; exact pr1
    · rw [if_neg h] at pr1 pr2; exact Finset.Subset.antisymm pr1 pr2

theorem Model.join_comm_masked {a b : Model} (hm : a.method = b.method)
    (hf : a.frozen = b.frozen) :
    (a.join b).maskFrozen = (b.join a).maskFrozen := by
  apply Model.ext <;> (try funext r) <;>
    simp [Model.maskFrozen, Model.join, Model.is_frozen, hm, hf,
      Finset.union_comm, Nat.lor_comm, sanitizer_join_comm,
      cdom_join_comm] <;>
    (try (split_ifs <;> rfl))

theorem Model.join_assoc_masked {a b c : Model} (hab : a.method = b.method)
    (hbc : b.method = c.method) (fab : a.frozen = b.frozen)
    (fbc : b.frozen = c.frozen) :
    ((a.join b).join c).maskFrozen = (a.join (b.join c)).maskFrozen := by
  apply Model.ext <;> (try funext r) <;>
    simp [Model.maskFrozen, Model.join, Model.is_frozen, hab, hbc, fab, fbc,
      Nat.lor_assoc, sanitizer_join_assoc, cdom_join_assoc,
      Finset.union_assoc] <;>
    (try (split_ifs <;> simp [Finset.union_assoc]))

theorem Model.join_empty_right (a : Model) : a.join Model.emptyModel = a := by
  apply Model.ext <;> (try funext r) <;>
    simp [Model.join, Model.emptyModel, Nat.or_zero,
      sanitizer_join_bot_right, cdom_join_bot_right]

theorem Model.join_empty_left {a : Model} (hm : a.method = none)
    (hf : a.frozen = 0) : Model.emptyModel.join a = a := by
  apply Model.ext <;> (try funext r) <;>
    simp [Model.join, Model.emptyModel, Model.is_frozen, hm, hf, Nat.zero_or,
      sanitizer_join_bot_left, cdom_join_bot_left]

theorem Model.empty_leq (a : Model) : Model.emptyModel.leq a := by
  unfold Model.leq
  refine ⟨?_, ?_, ?_, ?_, ?_, ?_, ?_, ?_, fun r => ?_, fun r => ?_, fun r => ?_,
    fun r => ?_, fun r => ?_, ?_, ?_, ?_, ?_⟩ <;>
    simp [Model.emptyModel, Model.is_frozen, Nat.zero_or,
      sanitizer_bot_le, cdom_bot_le]

/-! The claims. -/

/-- C1: Lattice laws for Models having the same method and the same frozen
set: leq is reflexive; leq is antisymmetric up to equality; join_with is
commutative and associative up to equality on the non-frozen components;
the empty (default-constructed) Model is the identity element for join_with
(a right identity outright, a left identity for Models sharing its method
and frozen set) and satisfies leq against every Model. -/
theorem model_lattice_laws (A B C : Model)
    (hAB : A.method = B.method) (hBC : B.method = C.method)
    (fAB : A.frozen = B.frozen) (fBC : B.frozen = C.frozen) :
    A.leq A ∧
    (A.leq B → B.leq A → A = B) ∧
    (A.join B).maskFrozen = (B.join A).maskFrozen ∧
    ((A.join B).join C).maskFrozen = (A.join (B.join C)).maskFrozen ∧
    A.join Model.emptyModel = A ∧
    (A.method = none → A.frozen = 0 → Model.emptyModel.join A = A) ∧
    Model.emptyModel.leq A :=
  ⟨Model.leq_refl A, Model.leq_antisymm hAB fAB,
   Model.join_comm_masked hAB fAB, Model.join_assoc_masked hAB hBC fAB fBC,
   Model.join_empty_right A, fun hm hf => Model.join_empty_left hm hf,
   Model.empty_leq A⟩

theorem model_lattice_laws_witness :
    Model.emptyModel.leq Model.emptyModel ∧
    Model.emptyModel.join Model.emptyModel = Model.emptyModel :=
  ⟨(model_lattice_laws Model.emptyModel Model.emptyModel Model.emptyModel
      rfl rfl rfl rfl).1,
   (model_lattice_laws Model.emptyModel Model.emptyModel Model.emptyModel
      rfl rfl rfl rfl).2.2.2.2.1⟩

/-- C2: Freeze immunity: every frozen component of A is unchanged by
joining any B into A, the frozen flags themselves never change via join,
and every inferred write into a frozen component's tree is a no-op on that
tree. -/
theorem model_freeze_immunity (A B : Model) (port : AccessPath) (t : Taint)
    (wf : Finset ℕ) :
    (A.is_frozen .generations = true → (A.join B).generations = A.generations) ∧
    (A.is_frozen .parameterSources = true →
      (A.join B).parameter_sources = A.parameter_sources) ∧
    (A.is_frozen .sinks = true → (A.join B).sinks = A.sinks) ∧
    (A.is_frozen .propagations = true →
      (A.join B).propagations = A.propagations) ∧
    (A.join B).frozen = A.frozen ∧
    (A.is_frozen .generations = true →
      (A.add_inferred_generations port t wf).generations = A.generations) ∧
    (A.is_frozen .sinks = true →
      (A.add_inferred_sinks port t wf).sinks = A.sinks) ∧
    (A.is_frozen .propagations = true →
      (A.add_inferred_propagations port t wf).propagations = A.propagations) := by
  refine ⟨?_, ?_, ?_, ?_, rfl, ?_, ?_, ?_⟩ <;> intro h <;>
    simp [Model.join, Model.add_inferred_generations, Model.add_inferred_sinks,
      Model.add_inferred_propagations, h]

theorem model_freeze_immunity_witness :
    (({ Model.emptyModel with frozen := 15 } : Model).join
        Model.emptyModel).generations
      = ({ Model.emptyModel with frozen := 15 } : Model).generations :=
  (model_freeze_immunity { Model.emptyModel with frozen := 15 }
    Model.emptyModel (Root.ret, []) ∅ ∅).1 rfl

/-- C10: Mode flag encoding: the eight Mode flags have exactly the numeric
values 0x1, 0x2, 0x4, 0x8, 0x10, 0x40, 0x80, 0x100 of source/Model.h, are
pairwise distinct powers of two, the bit 0x20 is unused by every Mode
enumerator, Normal is 0, and k_all_modes enumerates exactly the eight
flags. -/
theorem mode_flag_encoding :
    modeValue .skipAnalysis = 0x1 ∧
    modeValue .addViaObscureFeature = 0x2 ∧
    modeValue .taintInTaintOut = 0x4 ∧
    modeValue .taintInTaintThis = 0x8 ∧
    modeValue .noJoinVirtualOverrides = 0x10 ∧
    modeValue .noCollapseOnPropagation = 0x40 ∧
    modeValue .aliasMemoryLocationOnInvoke = 0x80 ∧
    modeValue .strongWriteOnPropagation = 0x100 ∧
    modeValue .normal = 0 ∧
    (k_all_modes.map modeValue).Nodup ∧
    (∀ v ∈ k_all_modes.map modeValue, ∃ i ∈ Finset.range 9, v = 2 ^ i) ∧
    (∀ m : Mode, modeValue m ≠ 0x20) ∧
    (∀ m : Mode, m ∈ k_all_modes ↔ m ≠ Mode.normal) ∧
    k_all_modes.length = 8 := by
  decide

/-- C3: Call-site substitution: a callee Model whose only sink is keyed on
argument port 0 at root "this", specialized via at_callsite for a call whose
argument 0 maps to caller local root R, has its sinks keyed on R rather
than on the callee's formal port, and every taint frame of the specialized
model carries the call's position as provenance. -/
theorem model_callsite_substitution (M : Model) (argMap : Root → Root)
    (pos : ℕ) (p : Path) (fr : Frame) (R : Root)
    (hsink : M.sinks = {((Root.argument 0, p), fr)})
    (hmap : argMap (Root.argument 0) = R) :
    (M.at_callsite argMap pos).sinks =
      {((R, p), { fr with position := some pos })} ∧
    (∀ e ∈ (M.at_callsite argMap pos).sinks, e.2.position = some pos) ∧
    (∀ e ∈ (M.at_callsite argMap pos).generations, e.2.position = some pos) ∧
    (∀ e ∈ (M.at_callsite argMap pos).propagations, e.2.position = some pos) := by
  refine ⟨?_, ?_, ?_, ?_⟩
  · simp [Model.at_callsite, retarget_tree, hsink, hmap]
  all_goals
    intro e he
    simp only [Model.at_callsite, retarget_tree, Finset.mem_image] at he
    obtain ⟨x, _, hxe⟩ := he
    rw [← hxe]

theorem model_callsite_substitution_witness :
    (({ Model.emptyModel with
        sinks := {((Root.argument 0, []), ⟨0, ∅, none⟩)} } : Model).at_callsite
      (fun _ => Root.ret) 7).sinks = {((Root.ret, []), ⟨0, ∅, some 7⟩)} :=
  (model_callsite_substitution
    { Model.emptyModel with sinks := {((Root.argument 0, []), ⟨0, ∅, none⟩)} }
    (fun _ => Root.ret) 7 [] ⟨0, ∅, none⟩ Root.ret rfl rfl).1

theorem add_inferred_generations_bounded {m : Model} {port : AccessPath}
    {t : Taint} {wf : Finset ℕ}
    (h : ∀ e ∈ m.generations, e.1.2.length ≤ k_max_port_size) :
    ∀ e ∈ (m.add_inferred_generations port t wf).generations,
      e.1.2.length ≤ k_max_port_size := by
  intro e he
  by_cases hf : m.is_frozen .generations
  · rw [Model.add_inferred_generations, if_pos hf] at he
    exact h e he
  · rw [Model.add_inferred_generations, if_neg hf] at he
    simp only [update_taint_tree, Finset.mem_union, Finset.mem_image] at he
    rcases he with he | he
    · exact h e he
    · obtain ⟨x, _, hxe⟩ := he
      rw [← hxe]
      simp [List.length_take]

/-- C5: Widening bound invariant: any sequence of add_inferred_generations
calls keeps every path of the generations tree within the configured
complexity bound, and an insert at a path deeper than the bound collapses
into the ancestor at the truncated path, its frames carrying the supplied
widening features. -/
theorem model_widening_bound (m : Model) (calls : List (AccessPath × Taint))
    (wf : Finset ℕ)
    (h : ∀ e ∈ m.generations, e.1.2.length ≤ k_max_port_size) :
    (∀ e ∈ (calls.foldl
        (fun acc pc => acc.add_inferred_generations pc.1 pc.2 wf) m).generations,
      e.1.2.length ≤ k_max_port_size) ∧
    (∀ port t, k_max_port_size < port.2.length →
      m.is_frozen .generations = false →
      (m.add_inferred_generations port t wf).generations =
        m.generations ∪
          (m.apply_source_sink_sanitizers .sources t port.1).image
            (fun fr => ((port.1, port.2.take k_max_port_size),
              { fr with features := fr.features ∪ wf }))) := by
  constructor
  · induction calls generalizing m with
    | nil => exact h
    | cons pc rest ih => exact ih _ (add_inferred_generations_bounded h)
  · intro port t hlen hfroz
    rw [Model.add_inferred_generations, if_neg (by simp [hfroz])]
    simp [update_taint_tree, hlen, Finset.image_image]
    rfl

theorem model_widening_bound_witness :
    (Model.emptyModel.add_inferred_generations (Root.ret, [1, 2, 3, 4, 5])
        {⟨0, ∅, none⟩} ∅).generations
      = {((Root.ret, [1, 2, 3, 4]), ⟨0, ∅, none⟩)} := by
  have h := (model_widening_bound Model.emptyModel [] ∅
    (by simp [Model.emptyModel])).2 (Root.ret, [1, 2, 3, 4, 5])
    {⟨0, ∅, none⟩} (by decide) rfl
  rw [h]
  decide

/-- C6: Sanitizer filtering: with a global sanitizer blocking kind K for
sinks, an inferred-sink write whose taint contains only kind K is fully
sanitized and leaves the sinks tree unchanged; and the sanitizer
application filters the taint first by the global sanitizers, then by the
port sanitizers for the given root, returning bottom when fully
sanitized. -/
theorem model_sanitizer_filtering (m : Model) (port : AccessPath) (t : Taint)
    (wf : Finset ℕ) (K : ℕ)
    (hblock : m.global_sanitizers.sinks.blocks K = true)
    (hK : ∀ fr ∈ t, fr.kind = K) :
    m.apply_source_sink_sanitizers .sinks t port.1 = ∅ ∧
    (m.add_inferred_sinks port t wf).sinks = m.sinks ∧
    (∀ kind t2 r, m.apply_source_sink_sanitizers kind t2 r =
      t2.filter
        (fun fr => (m.global_sanitizers.get kind).blocks fr.kind = false ∧
          ((m.port_sanitizers r).get kind).blocks fr.kind = false)) := by
  have h1 : t.filter
      (fun fr => (m.global_sanitizers.get .sinks).blocks fr.kind = false) = ∅ := by
    rw [Finset.filter_eq_empty_iff]
    intro fr hfr
    simp [SanitizerSet.get, hK fr hfr, hblock]
  have h2 : m.apply_source_sink_sanitizers .sinks t port.1 = ∅ := by
    rw [Model.apply_source_sink_sanitizers, h1]
    exact Finset.filter_empty _
  refine ⟨h2, ?_, ?_⟩
  · by_cases hf : m.is_frozen .sinks
    · rw [Model.add_inferred_sinks, if_pos hf]
    · rw [Model.add_inferred_sinks, if_neg hf]
      show update_taint_tree m.sinks port k_max_port_size
        (m.apply_source_sink_sanitizers .sinks t port.1) wf = m.sinks
      rw [h2]
      simp [update_taint_tree]
  · intro kind t2 r
    rw [Model.apply_source_sink_sanitizers, Finset.filter_filter]

theorem model_sanitizer_filtering_witness :
    ({ Model.emptyModel with
        global_sanitizers :=
          { SanitizerSet.bot with
            sinks := KindSet.specific {5} } } : Model).apply_source_sink_sanitizers
      .sinks {⟨5, ∅, none⟩} Root.ret = ∅ :=
  (model_sanitizer_filtering
    { Model.emptyModel with
      global_sanitizers := { SanitizerSet.bot with sinks := KindSet.specific {5} } }
    (Root.ret, []) {⟨5, ∅, none⟩} ∅ 5 (by decide) (by decide)).1

theorem KindSet.remove_blocks {ks : KindSet} {S : Finset ℕ} {K2 : ℕ}
    (h : K2 ∈ S) (hne : ks.remove S ≠ KindSet.all) :
    (ks.remove S).blocks K2 = false := by
  cases ks
  · simp [KindSet.remove, KindSet.blocks, h]
  · simp [KindSet.remove] at hne

theorem SanitizerSet.get_remove (ss : SanitizerSet) (S : Finset ℕ)
    (k : SanitizerKind) : (ss.remove S).get k = (ss.get k).remove S := by
  cases k <;> rfl

/-- C7: Kind removal: remove_kinds prunes the listed kinds from every taint
tree (an entry whose taint becomes bottom is dropped, its port reverting to
absent) and from every sanitizer entry; in particular removing kind K from
a Model whose only sink frame has kind K empties the sinks tree. -/
theorem model_kind_removal (m : Model) (S : Finset ℕ) (r : Root) (p : Path)
    (fr : Frame) (K : ℕ)
    (hsink : m.sinks = {((r, p), fr)}) (hk : fr.kind = K) :
    (m.remove_kinds {K}).sinks = ∅ ∧
    (∀ e, e ∈ (m.remove_kinds S).sinks ↔ e ∈ m.sinks ∧ e.2.kind ∉ S) ∧
    (∀ e, e ∈ (m.remove_kinds S).generations ↔
      e ∈ m.generations ∧ e.2.kind ∉ S) ∧
    (∀ e, e ∈ (m.remove_kinds S).parameter_sources ↔
      e ∈ m.parameter_sources ∧ e.2.kind ∉ S) ∧
    (∀ e, e ∈ (m.remove_kinds S).call_effect_sources ↔
      e ∈ m.call_effect_sources ∧ e.2.kind ∉ S) ∧
    (∀ e, e ∈ (m.remove_kinds S).call_effect_sinks ↔
      e ∈ m.call_effect_sinks ∧ e.2.kind ∉ S) ∧
    (∀ e, e ∈ (m.remove_kinds S).propagations ↔
      e ∈ m.propagations ∧ e.2.kind ∉ S) ∧
    (∀ K2 ∈ S, ∀ k : SanitizerKind,
      (m.remove_kinds S).global_sanitizers.get k ≠ KindSet.all →
      ((m.remove_kinds S).global_sanitizers.get k).blocks K2 = false) ∧
    (∀ r2 : Root, ∀ K2 ∈ S, ∀ k : SanitizerKind,
      ((m.remove_kinds S).port_sanitizers r2).get k ≠ KindSet.all →
      (((m.remove_kinds S).port_sanitizers r2).get k).blocks K2 = false) := by
  refine ⟨?_, ?_, ?_, ?_, ?_, ?_, ?_, ?_, ?_⟩
  · simp [Model.remove_kinds, prune_tree, hsink, Finset.filter_singleton, hk]
  · intro e; simp [Model.remove_kinds, prune_tree]
  · intro e; simp [Model.remove_kinds, prune_tree]
  · intro e; simp [Model.remove_kinds, prune_tree]
  · intro e; simp [Model.remove_kinds, prune_tree]
  · intro e; simp [Model.remove_kinds, prune_tree]
  · intro e; simp [Model.remove_kinds, prune_tree]
  · intro K2 hK2 k hne
    rw [show (m.remove_kinds S).global_sanitizers
        = m.global_sanitizers.remove S from rfl, SanitizerSet.get_remove] at hne ⊢
    exact KindSet.remove_blocks hK2 hne
  · intro r2 K2 hK2 k hne
    rw [show (m.remove_kinds S).port_sanitizers r2
        = (m.port_sanitizers r2).remove S from rfl,
      SanitizerSet.get_remove] at hne ⊢
    exact KindSet.remove_blocks hK2 hne

theorem model_kind_removal_witness :
    (({ Model.emptyModel with
        sinks := {((Root.ret, []), ⟨3, ∅, none⟩)} } : Model).remove_kinds
      {3}).sinks = ∅ :=
  (model_kind_removal
    { Model.emptyModel with sinks := {((Root.ret, []), ⟨3, ∅, none⟩)} }
    {3} Root.ret [] ⟨3, ∅, none⟩ 3 rfl rfl).1

/-- C8: Instantiation frame property: instantiate returns a Model whose
method is the given one and whose every other component equals the
corresponding component of the original Model. -/
theorem model_instantiate_frame (m : Model) (mm : ℕ) :
    (m.instantiate mm).method = some mm ∧
    (m.instantiate mm).modes = m.modes ∧
    (m.instantiate mm).frozen = m.frozen ∧
    (m.instantiate mm).generations = m.generations ∧
    (m.instantiate mm).parameter_sources = m.parameter_sources ∧
    (m.instantiate mm).sinks = m.sinks ∧
    (m.instantiate mm).call_effect_sources = m.call_effect_sources ∧
    (m.instantiate mm).call_effect_sinks = m.call_effect_sinks ∧
    (m.instantiate mm).propagations = m.propagations ∧
    (m.instantiate mm).global_sanitizers = m.global_sanitizers ∧
    (m.instantiate mm).port_sanitizers = m.port_sanitizers ∧
    (m.instantiate mm).attach_to_sources = m.attach_to_sources ∧
    (m.instantiate mm).attach_to_sinks = m.attach_to_sinks ∧
    (m.instantiate mm).attach_to_propagations = m.attach_to_propagations ∧
    (m.instantiate mm).add_features_to_arguments = m.add_features_to_arguments ∧
    (m.instantiate mm).inline_as_getter = m.inline_as_getter ∧
    (m.instantiate mm).inline_as_setter = m.inline_as_setter ∧
    (m.instantiate mm).model_generators = m.model_generators ∧
    (m.instantiate mm).issues = m.issues :=
  ⟨rfl, rfl, rfl, rfl, rfl, rfl, rfl, rfl, rfl, rfl, rfl, rfl, rfl, rfl, rfl,
   rfl, rfl, rfl, rfl⟩

/-- C4: Serialization round-trip: parsing the full-mode export of any Model
with from_json on the Model's own method yields the Model back, preserving
provenance (the minimal-mode export is exempt). -/
theorem model_serialization_round_trip (m : Model) :
    Model.from_json m.method (m.to_json .full) true = Except.ok m := by
  cases m
  rfl

theorem foldl_applyField_filter (acc : Model) (j : Json) :
    (j.filter (fun g => !g.isUnknown)).foldl applyField acc
      = j.foldl applyField acc := by
  induction j generalizing acc with
  | nil => rfl
  | cons g rest ih =>
    by_cases hg : g.isUnknown = true
    · have hfil : List.filter (fun x => !x.isUnknown) (g :: rest)
          = List.filter (fun x => !x.isUnknown) rest := by
        simp [hg]
      have happ : applyField acc g = acc := by
        cases g <;> simp_all [JField.isUnknown, applyField]
      rw [hfil, ih, List.foldl_cons, happ]
    · have hfil : List.filter (fun x => !x.isUnknown) (g :: rest)
          = g :: List.filter (fun x => !x.isUnknown) rest := by
        simp [hg]
      rw [hfil, List.foldl_cons, List.foldl_cons, ih]

/-- C9: Strict versus lenient parsing: from_json with
check_unexpected_members set rejects a record containing a field outside
the schema with a parse error naming the offending member, while with the
flag unset it accepts the same record and ignores the unknown fields; in
both modes every absent schema field defaults to the corresponding
bottom/empty component value. -/
theorem model_parse_strictness (mm : Option ℕ) (j : Json) (f : JField)
    (hfind : j.find? JField.isUnknown = some f) :
    Model.from_json mm j true
      = Except.error (String.append "unexpected member " f.name) ∧
    Model.from_json mm j false = Except.ok (build_model mm j) ∧
    (∀ j2 : Json,
      build_model mm (j2.filter (fun g => !g.isUnknown)) = build_model mm j2) ∧
    Model.from_json mm [] true
      = Except.ok { Model.emptyModel with method := mm } := by
  refine ⟨?_, ?_, ?_, rfl⟩
  · rw [Model.from_json, hfind]
    rfl
  · rw [Model.from_json, hfind]
    rfl
  · intro j2
    exact foldl_applyField_filter _ j2

theorem model_parse_strictness_witness :
    Model.from_json (some 1) [JField.unknownField "zzz"] true
      = Except.error (String.append "unexpected member "
        (JField.unknownField "zzz").name) :=
  (model_parse_strictness (some 1) [JField.unknownField "zzz"]
    (JField.unknownField "zzz") rfl).1

end MarianaTrench
